import Mathlib

/-!
Verification of the search-evaluation-transposition subsystem of the chess
engine in `src/Engine/engine.cpp`.

The external board library (chess.hpp) is out of scope of the repository; a
position is modelled as the record of every query the engine performs on it
(`BoardView`), and the reachable positions as a game tree (`GTree`) whose
edges are the library's `makeMove`/`unmakeMove` and null-move operations.
The engine's mutable board is modelled as the stack of currently-made moves
(`SearchState.path`); wall-clock time is modelled by an oracle
`Env.timeExpired` giving the result of the periodic `elapsed > time_limit`
test as a function of the node counter at the poll (every real-time execution
is described by some such oracle).

The general recursion of `quiescence` and `negamax` is embedded with explicit
fuel; all theorems below are proved for every fuel value, and for `quiescence`
the fuel `12 - qdepth` is shown to be exact.
-/

set_option linter.unusedVariables false

namespace Engine

/-- Colors of the two sides (chess.hpp `Color`). -/
inductive Color where
  | WHITE
  | BLACK
deriving DecidableEq

/-- Piece types in the order of their `internal()` indices in chess.hpp
(`PAWN = 0` .. `KING = 5`, `NONE = 6`). -/
inductive PieceType where
  | PAWN
  | KNIGHT
  | BISHOP
  | ROOK
  | QUEEN
  | KING
  | NONE
deriving DecidableEq

/-- A piece on the board, or an empty square (chess.hpp `Piece`). -/
inductive Piece where
  | mk (color : Color) (ptype : PieceType)
  | NONE
deriving DecidableEq

/-- `Piece::type()`; `Piece::NONE.type()` is `PieceType::NONE`. -/
def Piece.type : Piece → PieceType
  | .mk _ t => t
  | .NONE => PieceType.NONE

/-- `Piece::color()`.  The engine only queries the color of occupied squares
(sources of legal moves), so the value on `NONE` is immaterial. -/
def Piece.pcolor : Piece → Color
  | .mk c _ => c
  | .NONE => Color.WHITE

/-- chess.hpp move types (`Move::NORMAL`, `PROMOTION`, `ENPASSANT`, `CASTLING`). -/
inductive MoveType where
  | NORMAL
  | PROMOTION
  | ENPASSANT
  | CASTLING
deriving DecidableEq

/-- A move handle: source and destination squares, type, promotion piece type,
and the mutable ordering-score field set by `order_moves`. -/
structure Move where
  fromSq : Nat
  toSq : Nat
  typeOf : MoveType
  promotionType : PieceType
  score : Int
deriving DecidableEq

/-- chess.hpp `Move::operator==` compares the packed move data and ignores the
mutable ordering-score field. -/
def Move.meq (a b : Move) : Bool :=
  a.fromSq == b.fromSq && a.toSq == b.toSq && a.typeOf == b.typeOf &&
    a.promotionType == b.promotionType

instance : BEq Move := ⟨Move.meq⟩

/-- `Move::NO_MOVE` (the all-zero move; its decoded promotion type is KNIGHT). -/
def NO_MOVE : Move := ⟨0, 0, MoveType.NORMAL, PieceType.KNIGHT, 0⟩

/-- `const int MATE_VALUE = 30000`. -/
def MATE_VALUE : Int := 30000

/-- `const int DRAW_VALUE = 0`. -/
def DRAW_VALUE : Int := 0

/-- `const int INF = 32000`. -/
def INF : Int := 32000

/-- `ChessEngine::piece_values`, indexed by `PieceType::internal()`:
`{100, 320, 330, 500, 900, 20000, 0}`. -/
def piece_values : PieceType → Int
  | .PAWN => 100
  | .KNIGHT => 320
  | .BISHOP => 330
  | .ROOK => 500
  | .QUEEN => 900
  | .KING => 20000
  | .NONE => 0

/-- `ChessEngine::pst_pawn`. -/
def pst_pawn : List Int :=
  [ 0,  0,  0,  0,  0,  0,  0,  0,
   50, 50, 50, 50, 50, 50, 50, 50,
   10, 10, 20, 30, 30, 20, 10, 10,
    5,  5, 10, 25, 25, 10,  5,  5,
    0,  0,  0, 20, 20,  0,  0,  0,
    5, -5,-10,  0,  0,-10, -5,  5,
    5, 10, 10,-20,-20, 10, 10,  5,
    0,  0,  0,  0,  0,  0,  0,  0]

/-- `ChessEngine::pst_knight`. -/
def pst_knight : List Int :=
  [-50,-40,-30,-30,-30,-30,-40,-50,
   -40,-20,  0,  0,  0,  0,-20,-40,
   -30,  0, 10, 15, 15, 10,  0,-30,
   -30,  5, 15, 20, 20, 15,  5,-30,
   -30,  0, 15, 20, 20, 15,  0,-30,
   -30,  5, 10, 15, 15, 10,  5,-30,
   -40,-20,  0,  5,  5,  0,-20,-40,
   -50,-40,-30,-30,-30,-30,-40,-50]

/-- `ChessEngine::pst_bishop`. -/
def pst_bishop : List Int :=
  [-20,-10,-10,-10,-10,-10,-10,-20,
   -10,  0,  0,  0,  0,  0,  0,-10,
   -10,  0,  5, 10, 10,  5,  0,-10,
   -10,  5,  5, 10, 10,  5,  5,-10,
   -10,  0, 10, 10, 10, 10,  0,-10,
   -10, 10, 10, 10, 10, 10, 10,-10,
   -10,  5,  0,  0,  0,  0,  5,-10,
   -20,-10,-10,-10,-10,-10,-10,-20]

/-- `ChessEngine::pst_rook`. -/
def pst_rook : List Int :=
  [ 0,  0,  0,  0,  0,  0,  0,  0,
    5, 10, 10, 10, 10, 10, 10,  5,
   -5,  0,  0,  0,  0,  0,  0, -5,
   -5,  0,  0,  0,  0,  0,  0, -5,
   -5,  0,  0,  0,  0,  0,  0, -5,
   -5,  0,  0,  0,  0,  0,  0, -5,
   -5,  0,  0,  0,  0,  0,  0, -5,
    0,  0,  0,  5,  5,  0,  0,  0]

/-- `ChessEngine::pst_queen`. -/
def pst_queen : List Int :=
  [-20,-10,-10, -5, -5,-10,-10,-20,
   -10,  0,  0,  0,  0,  0,  0,-10,
   -10,  0,  5,  5,  5,  5,  0,-10,
    -5,  0,  5,  5,  5,  5,  0, -5,
     0,  0,  5,  5,  5,  5,  0, -5,
   -10,  5,  5,  5,  5,  5,  0,-10,
   -10,  0,  5,  0,  0,  0,  0,-10,
   -20,-10,-10, -5, -5,-10,-10,-20]

/-- `ChessEngine::pst_king`. -/
def pst_king : List Int :=
  [-30,-40,-40,-50,-50,-40,-40,-30,
   -30,-40,-40,-50,-50,-40,-40,-30,
   -30,-40,-40,-50,-50,-40,-40,-30,
   -30,-40,-40,-50,-50,-40,-40,-30,
   -20,-30,-30,-40,-40,-30,-30,-20,
   -10,-20,-20,-20,-20,-20,-20,-10,
    20, 20,  0,  0,  0,  0, 20, 20,
    20, 30, 10,  0,  0, 10, 30, 20]

/-- `ChessEngine::pst_pawn_endgame`. -/
def pst_pawn_endgame : List Int :=
  [ 0,  0,  0,  0,  0,  0,  0,  0,
   80, 80, 80, 80, 80, 80, 80, 80,
   60, 60, 60, 60, 60, 60, 60, 60,
   40, 40, 40, 40, 40, 40, 40, 40,
   20, 20, 20, 20, 20, 20, 20, 20,
   10, 10, 10, 10, 10, 10, 10, 10,
   10, 10, 10, 10, 10, 10, 10, 10,
    0,  0,  0,  0,  0,  0,  0,  0]

/-- `ChessEngine::pst_king_endgame`. -/
def pst_king_endgame : List Int :=
  [-50,-30,-30,-30,-30,-30,-30,-50,
   -30,-30,  0,  0,  0,  0,-30,-30,
   -30,-10, 20, 30, 30, 20,-10,-30,
   -30,-10, 30, 40, 40, 30,-10,-30,
   -30,-10, 30, 40, 40, 30,-10,-30,
   -30,-10, 20, 30, 30, 20,-10,-30,
   -30,-20,-10,  0,  0,-10,-20,-30,
   -50,-40,-30,-20,-20,-30,-40,-50]

/-- chess.hpp `GameResultReason` (the first component of `Board::isGameOver()`). -/
inductive GameResultReason where
  | NONE
  | CHECKMATE
  | STALEMATE
  | INSUFFICIENT_MATERIAL
  | FIFTY_MOVE_RULE
  | THREEFOLD_REPETITION
deriving DecidableEq

/-- The results of the external board library's queries at one position. -/
structure BoardView where
  sideToMove : Color
  gameOverReason : GameResultReason
  halfMoveDraw : Bool
  repetition : Bool
  inCheck : Bool
  nonPawnMaterial : Bool
  hash : Nat
  squares : Nat → Piece
  legalMoves : List Move
  kingSqW : Nat
  kingSqB : Nat

/-- chess.hpp `Board::isCapture`: the destination square is occupied and the
move is not castling, or the move is en passant. -/
def BoardView.isCapture (b : BoardView) (m : Move) : Bool :=
  (b.squares m.toSq != Piece.NONE && m.typeOf != MoveType.CASTLING) ||
    m.typeOf == MoveType.ENPASSANT

/-- `ChessEngine::count_pieces`: number of non-pawn, non-king pieces. -/
def count_pieces (b : BoardView) : Nat :=
  ((List.range 64).filter (fun sq =>
    b.squares sq != Piece.NONE && (b.squares sq).type != PieceType.PAWN &&
      (b.squares sq).type != PieceType.KING)).length

/-- The piece-square table lookup of `ChessEngine::evaluate`'s switch. -/
def pstLookup (is_endgame : Bool) (pt : PieceType) (idx : Nat) : Int :=
  match pt with
  | .PAWN => (if is_endgame then pst_pawn_endgame else pst_pawn).getD idx 0
  | .KNIGHT => pst_knight.getD idx 0
  | .BISHOP => pst_bishop.getD idx 0
  | .ROOK => pst_rook.getD idx 0
  | .QUEEN => pst_queen.getD idx 0
  | .KING => (if is_endgame then pst_king_endgame else pst_king).getD idx 0
  | .NONE => 0

/-- The per-square term of the material/piece-square loop in
`ChessEngine::evaluate`: material value plus positional value, added for White
and subtracted for Black; black pieces use the mirrored index `63 - sq`. -/
def squareTerm (b : BoardView) (is_endgame : Bool) (sq : Nat) : Int :=
  match b.squares sq with
  | .NONE => 0
  | .mk c t =>
    let sq_index := if c = Color.WHITE then sq else 63 - sq
    let total := piece_values t + pstLookup is_endgame t sq_index
    if c = Color.WHITE then total else -total

/-- `ChessEngine::calculate_mobility`: counts the side-to-move's generated legal
moves whose source square holds a piece of the given color. -/
def calculate_mobility (b : BoardView) (c : Color) : Nat :=
  (b.legalMoves.filter (fun m => (b.squares m.fromSq).pcolor == c)).length

/-- `ChessEngine::calculate_king_distance_evaluation` (chess.hpp square
encoding: `file = sq % 8`, `rank = sq / 8`). -/
def calculate_king_distance_evaluation (friendly_king_sq opponent_king_sq : Nat) : Int :=
  let friendly_file : Int := (friendly_king_sq % 8 : Nat)
  let friendly_rank : Int := (friendly_king_sq / 8 : Nat)
  let opponent_file : Int := (opponent_king_sq % 8 : Nat)
  let opponent_rank : Int := (opponent_king_sq / 8 : Nat)
  let opponentKingDstToCentreFile := max (3 - opponent_file) (opponent_file - 4)
  let opponentKingDstToCentreRank := max (3 - opponent_rank) (opponent_rank - 4)
  let opponentKingDstFromCentre := opponentKingDstToCentreFile + opponentKingDstToCentreRank
  let dstBetweenKingsFile := |friendly_file - opponent_file|
  let dstBetweenKingsRank := |friendly_rank - opponent_rank|
  let dstBetweenKings := dstBetweenKingsFile + dstBetweenKingsRank
  (opponentKingDstFromCentre + (14 - dstBetweenKings)) * 10

/-- The white-perspective running score of `ChessEngine::evaluate` for
positions that are not game over: the value of the local variable `score`
just before the final side-to-move negation. -/
def evalWhiteScore (b : BoardView) : Int :=
  let is_endgame := count_pieces b ≤ 6
  let material := ((List.range 64).map (fun sq => squareTerm b is_endgame sq)).sum
  let white_pawns : Int :=
    (((List.range 64).filter
      (fun sq => b.squares sq == Piece.mk Color.WHITE PieceType.PAWN)).length : Nat)
  let black_pawns : Int :=
    (((List.range 64).filter
      (fun sq => b.squares sq == Piece.mk Color.BLACK PieceType.PAWN)).length : Nat)
  let score1 := material + white_pawns * 10 - black_pawns * 10
  let score2 := score1 +
    ((calculate_mobility b Color.WHITE : Int) - (calculate_mobility b Color.BLACK : Int)) * 5
  let score3 := score2 +
    (if is_endgame then
      (if b.sideToMove = Color.WHITE then
        calculate_king_distance_evaluation b.kingSqW b.kingSqB
      else
        calculate_king_distance_evaluation b.kingSqB b.kingSqW)
    else 0)
  score3 + (if b.inCheck then (if b.sideToMove = Color.WHITE then -20 else 20) else 0)

/-- `ChessEngine::evaluate`. -/
def evaluate (b : BoardView) : Int :=
  if b.gameOverReason ≠ GameResultReason.NONE then
    if b.gameOverReason = GameResultReason.CHECKMATE then
      if b.sideToMove = Color.WHITE then -MATE_VALUE else MATE_VALUE
    else DRAW_VALUE
  else
    if b.sideToMove = Color.WHITE then evalWhiteScore b else -(evalWhiteScore b)

/-- `TTFlag`. -/
inductive TTFlag where
  | TT_EXACT
  | TT_ALPHA
  | TT_BETA
deriving DecidableEq

/-- `TTEntry`. -/
structure TTEntry where
  key : Nat
  best_move : Move
  depth : Int
  score : Int
  flag : TTFlag
deriving DecidableEq

/-- The `TTEntry()` default constructor: an all-zero key marks an unused slot. -/
def TTEntry.empty : TTEntry := ⟨0, NO_MOVE, 0, 0, TTFlag.TT_EXACT⟩

/-- `sizeof(TTEntry)` on the build platform: 8 (key) + 4 (`Move`: a 16-bit
packed move plus a 16-bit score) + 4 (depth) + 4 (score) + 4 (flag) = 24. -/
def ttEntryBytes : Nat := 24

/-- The constructor's sizing loop `actual_size = 1; while (actual_size < size)
actual_size <<= 1`, with explicit fuel; `size` iterations are always enough
because `actual_size` strictly increases. -/
def growSize : Nat → Nat → Nat → Nat
  | 0, actual, _ => actual
  | fuel + 1, actual, size => if actual < size then growSize fuel (actual * 2) size else actual

/-- `TranspositionTable`: the backing vector is modelled as its contents
(`table`) together with its length (`size`). -/
structure TT where
  table : Nat → TTEntry
  size : Nat
  size_mask : Nat

/-- `TranspositionTable::TranspositionTable(size_mb)`. -/
def TT.new (size_mb : Nat) : TT :=
  let size := (size_mb * 1024 * 1024) / ttEntryBytes
  let actual_size := growSize size 1 size
  ⟨fun _ => TTEntry.empty, actual_size, actual_size - 1⟩

/-- The slot index computed at the top of both `probe` and `store`:
`key & size_mask`. -/
def TT.index (t : TT) (key : Nat) : Nat := key &&& t.size_mask

/-- `TranspositionTable::store`. -/
def TT.store (t : TT) (key : Nat) (move : Move) (depth : Int) (score : Int)
    (flag : TTFlag) : TT :=
  let i := t.index key
  let entry := t.table i
  if entry.key = 0 ∨ entry.depth ≤ depth ∨ entry.key = key then
    { t with table := fun j => if j = i then ⟨key, move, depth, score, flag⟩ else t.table j }
  else t

/-- `TranspositionTable::probe`. -/
def TT.probe (t : TT) (key : Nat) : Option TTEntry :=
  let entry := t.table (t.index key)
  if entry.key = key then some entry else none

/-- A game tree: the current position's library view, the positions reached by
`makeMove` on each legal move, and the position reached by `makeNullMove`. -/
inductive GTree where
  | node (view : BoardView) (children : List (Move × GTree)) (nullChild : Option GTree)

/-- The library view at the root of a game tree. -/
def GTree.view : GTree → BoardView
  | .node v _ _ => v

/-- The move-indexed children of a game tree. -/
def GTree.children : GTree → List (Move × GTree)
  | .node _ c _ => c

/-- The null-move child of a game tree. -/
def GTree.nullChild : GTree → Option GTree
  | .node _ _ n => n

/-- Follow one made move (`some m` for `makeMove m`, `none` for `makeNullMove`). -/
def GTree.step (t : GTree) (pm : Option Move) : Option GTree :=
  match pm with
  | some m => (t.children.find? (fun p => p.1 == m)).map Prod.snd
  | none => t.nullChild

/-- Follow a root-to-current sequence of made moves. -/
def walkTo : GTree → List (Option Move) → Option GTree
  | t, [] => some t
  | t, pm :: rest =>
    match t.step pm with
    | some t2 => walkTo t2 rest
    | none => none

/-- A view used only for made-move stacks that leave the modelled tree (the
engine never produces such stacks: it only makes generated legal moves). -/
def defaultView : BoardView :=
  { sideToMove := Color.WHITE
    gameOverReason := GameResultReason.NONE
    halfMoveDraw := false
    repetition := false
    inCheck := false
    nonPawnMaterial := false
    hash := 0
    squares := fun _ => Piece.NONE
    legalMoves := []
    kingSqW := 0
    kingSqB := 0 }

/-- The search environment: the immutable game tree rooted at the engine's
current position, and the wall-clock oracle.  `timeExpired n` is the outcome of
the test `now() - search_start > time_limit` at the poll performed when
`nodes_searched = n`; every real-time execution is modelled by some oracle. -/
structure Env where
  root : GTree
  timeExpired : Nat → Bool

/-- The position reached from the root along a made-move stack (most recent
move first, as stored in `SearchState.path`). -/
def Env.treeAt (env : Env) (path : List (Option Move)) : GTree :=
  (walkTo env.root path.reverse).getD (GTree.node defaultView [] none)

/-- The board-library view of the position at a made-move stack. -/
def Env.viewAt (env : Env) (path : List (Option Move)) : BoardView :=
  (env.treeAt path).view

/-- The engine's mutable search state: the board (as the stack of currently
made moves, most recent first), the transposition table, the stop flag, and
the node counter. -/
structure SearchState where
  path : List (Option Move)
  tt : TT
  stop_search : Bool
  nodes_searched : Nat

/-- Insert a move into a score-descending list, keeping it descending. -/
def insertDesc (m : Move) : List Move → List Move
  | [] => [m]
  | x :: xs => if x.score < m.score then m :: x :: xs else x :: insertDesc m xs

/-- A score-descending sort, modelling `std::sort` with the comparator
`a.score() > b.score()`; the C++ sort may resolve ties arbitrarily and this is
one admissible result. -/
def sortDesc : List Move → List Move
  | [] => []
  | m :: ms => insertDesc m (sortDesc ms)

/-- The check-bonus test in `ChessEngine::order_moves`: copy the board, make
the move, and ask whether the resulting position is check. -/
def givesCheck (t : GTree) (m : Move) : Bool :=
  match t.step (some m) with
  | some t2 => t2.view.inCheck
  | none => false

/-- The ordering key assigned to one move by `ChessEngine::order_moves`. -/
def moveOrderScore (t : GTree) (tt_move : Move) (m : Move) : Int :=
  let b := t.view
  let base : Int :=
    if m == tt_move then 10000
    else if b.isCapture m then
      piece_values (b.squares m.toSq).type - piece_values (b.squares m.fromSq).type + 1000
    else if m.typeOf == MoveType.PROMOTION then
      piece_values m.promotionType + 500
    else 0
  base + (if givesCheck t m then 100 else 0)

/-- `ChessEngine::order_moves`: set each move's score, then sort descending. -/
def order_moves (t : GTree) (moves : List Move) (tt_move : Move) : List Move :=
  sortDesc (moves.map (fun m => { m with score := moveOrderScore t tt_move m }))

/-- The capture loop of `ChessEngine::quiescence`, with the recursive call
(`quiescence` at `qdepth + 1`) abstracted as `f`. -/
def qloop (f : Int → Int → SearchState → Int × SearchState) (beta : Int) :
    List Move → Int → SearchState → Int × SearchState
  | [], alpha, st => (alpha, st)
  | m :: ms, alpha, st =>
    let st1 := { st with path := some m :: st.path }
    let r := f (-beta) (-alpha) st1
    let score := -r.1
    let st3 := { r.2 with path := r.2.path.tail }
    if st3.stop_search then (alpha, st3)
    else if beta ≤ score then (beta, st3)
    else qloop f beta ms (if alpha < score then score else alpha) st3

/-- `ChessEngine::quiescence(alpha, beta, depth)`, with explicit recursion
fuel.  Fuel `12 - qdepth` is exact (`quiescenceF_stable` below); the engine's
only top-level call (from `negamax` at `depth <= 0`) has `qdepth = 0` and is
made with fuel `12`. -/
def quiescenceF (env : Env) : Nat → Int → Int → Int → SearchState → Int × SearchState
  | 0, _, alpha, _, st => (alpha, st)
  | fuel + 1, qdepth, alpha, beta, st =>
    let v := env.viewAt st.path
    if 10 < qdepth then (evaluate v, st)
    else
      let st1 := { st with nodes_searched := st.nodes_searched + 1 }
      if st1.nodes_searched % 1024 == 0 && env.timeExpired st1.nodes_searched then
        (alpha, { st1 with stop_search := true })
      else
        let stand_pat := evaluate v
        if beta ≤ stand_pat then (beta, st1)
        else
          let alpha1 := if alpha < stand_pat then stand_pat else alpha
          let captures := v.legalMoves.filter v.isCapture
          let ordered := order_moves (env.treeAt st1.path) captures NO_MOVE
          qloop (fun a b s => quiescenceF env fuel (qdepth + 1) a b s) beta ordered alpha1 st1

/-- The move loop of `ChessEngine::negamax` (PVS, cutoff, alpha update, and
the two `tt.store` sites), with the child search (`negamax` at `depth - 1`)
abstracted as `f`. -/
def nloop (f : Int → Int → SearchState → Int × SearchState)
    (key : Nat) (depth : Int) (beta : Int) :
    List Move → Nat → Int → Int → Move → TTFlag → SearchState → Int × SearchState
  | [], _, _, best_score, best_move, flag, st =>
    (best_score, { st with tt := st.tt.store key best_move depth best_score flag })
  | m :: ms, i, alpha, best_score, best_move, flag, st =>
    let st1 := { st with path := some m :: st.path }
    let r :=
      if i == 0 then
        f (-beta) (-alpha) st1
      else
        let r1 := f (-alpha - 1) (-alpha) st1
        if alpha < -r1.1 ∧ -r1.1 < beta then f (-beta) (-alpha) r1.2
        else r1
    let score := -r.1
    let st3 := { r.2 with path := r.2.path.tail }
    if st3.stop_search then (alpha, st3)
    else
      let best_score2 := if best_score < score then score else best_score
      let best_move2 := if best_score < score then m else best_move
      if beta ≤ score then
        (beta, { st3 with tt := st3.tt.store key best_move2 depth beta TTFlag.TT_BETA })
      else
        let alpha2 := if alpha < score then score else alpha
        let flag2 := if alpha < score then TTFlag.TT_EXACT else flag
        nloop f key depth beta ms (i + 1) alpha2 best_score2 best_move2 flag2 st3

/-- The part of `ChessEngine::negamax` from the draw shortcut onward (draw
shortcut, game-over handling, null-move pruning, move generation and the move
loop), with the recursive search abstracted as `f depth alpha beta null_allowed`. -/
def negamaxRest (env : Env) (f : Int → Int → Int → Bool → SearchState → Int × SearchState)
    (depth alpha beta : Int) (null_move_allowed : Bool) (tt_move : Move) (key : Nat)
    (st1 : SearchState) : Int × SearchState :=
  let v := env.viewAt st1.path
  if v.halfMoveDraw || v.repetition then (DRAW_VALUE, st1)
  else if v.gameOverReason ≠ GameResultReason.NONE then
    (if v.gameOverReason = GameResultReason.CHECKMATE then
      -MATE_VALUE + (st1.nodes_searched : Int)
    else DRAW_VALUE, st1)
  else
    let nullRes : Option (Int × SearchState) :=
      if null_move_allowed = true ∧ 3 ≤ depth ∧ v.inCheck = false ∧
          v.nonPawnMaterial = true then
        let stN := { st1 with path := none :: st1.path }
        let rN := f (depth - 1 - 2) (-beta) (-beta + 1) false stN
        some (-rN.1, { rN.2 with path := rN.2.path.tail })
      else none
    let afterNull : Option Int × SearchState :=
      match nullRes with
      | some p => (if beta ≤ p.1 then some beta else none, p.2)
      | none => (none, st1)
    match afterNull.1 with
    | some s => (s, afterNull.2)
    | none =>
      let st2 := afterNull.2
      let v2 := env.viewAt st2.path
      let moves := v2.legalMoves
      if moves.isEmpty then
        (if v2.inCheck then -MATE_VALUE + (st2.nodes_searched : Int) else DRAW_VALUE, st2)
      else
        let ordered := order_moves (env.treeAt st2.path) moves tt_move
        nloop (fun a b s => f (depth - 1) a b true s)
          key depth beta ordered 0 alpha (-INF) NO_MOVE TTFlag.TT_ALPHA st2

/-- `ChessEngine::negamax(depth, alpha, beta, null_move_allowed)`, with
explicit recursion fuel (every theorem below holds for every fuel; fuel
`depth + 1` reproduces every run of the C++ recursion, whose nesting is
bounded by `depth`). -/
def negamaxF (env : Env) : Nat → Int → Int → Int → Bool → SearchState → Int × SearchState
  | 0, _, alpha, _, _, st => (alpha, st)
  | fuel + 1, depth, alpha, beta, null_move_allowed, st =>
    if st.stop_search then (alpha, st)
    else if depth ≤ 0 then quiescenceF env 12 0 alpha beta st
    else
      let st1 := { st with nodes_searched := st.nodes_searched + 1 }
      if st1.nodes_searched % 1024 == 0 && env.timeExpired st1.nodes_searched then
        (alpha, { st1 with stop_search := true })
      else
        let v := env.viewAt st1.path
        let key := v.hash
        let tt_entry := st1.tt.probe key
        let ttCut : Option Int :=
          match tt_entry with
          | some e =>
            if depth ≤ e.depth then
              if e.flag = TTFlag.TT_EXACT then some e.score
              else if e.flag = TTFlag.TT_ALPHA ∧ e.score ≤ alpha then some alpha
              else if e.flag = TTFlag.TT_BETA ∧ beta ≤ e.score then some beta
              else none
            else none
          | none => none
        match ttCut with
        | some s => (s, st1)
        | none =>
          let tt_move := match tt_entry with | some e => e.best_move | none => NO_MOVE
          negamaxRest env (fun d a b na2 s => negamaxF env fuel d a b na2 s)
            depth alpha beta null_move_allowed tt_move key st1

/-- One step of the iterative-deepening loop in `ChessEngine::search`
(`n` depths remaining, current depth `d`).  The `info` line is output only
and is not modelled. -/
def searchIter (env : Env) : Nat → Int → Move → SearchState → Move × SearchState
  | 0, _, best, st => (best, st)
  | n + 1, d, best, st =>
    if st.stop_search then (best, st)
    else
      let r := negamaxF env (d.toNat + 1) d (-INF) INF true st
      let best2 :=
        if r.2.stop_search then best
        else
          match r.2.tt.probe ((env.viewAt r.2.path).hash) with
          | some e => if e.best_move != NO_MOVE then e.best_move else best
          | none => best
      searchIter env n (d + 1) best2 r.2

/-- `ChessEngine::search(max_depth)`: reset the stop flag and node counter,
run iterative deepening, and fall back to the first legal move if the adopted
move is missing or not legal in the (restored) root position. -/
def search (env : Env) (st : SearchState) (max_depth : Nat) : Move × SearchState :=
  let st0 := { st with stop_search := false, nodes_searched := 0 }
  let r := searchIter env max_depth 1 NO_MOVE st0
  let v := env.viewAt r.2.path
  let best :=
    if r.1 == NO_MOVE || !(v.legalMoves.contains r.1) then v.legalMoves.headD NO_MOVE
    else r.1
  (best, r.2)

/-- The bestmove decision of the `go` handler in `UCIInterface::run`:
`some m` models printing `bestmove <uci(m)>`, and `none` models printing
`bestmove 0000`. -/
def goHandlerMove (env : Env) (st : SearchState) (depth : Nat) : Option Move :=
  let r := search env st depth
  let best :=
    if r.1 == NO_MOVE then (env.viewAt r.2.path).legalMoves.headD NO_MOVE else r.1
  if best != NO_MOVE then some best else none

/-! ### Make/unmake balance: the made-move stack is restored on every return path -/

theorem qloop_path (f : Int → Int → SearchState → Int × SearchState)
    (hf : ∀ a b s, ((f a b s).2).path = s.path) (beta : Int) :
    ∀ (ms : List Move) (alpha : Int) (st : SearchState),
      ((qloop f beta ms alpha st).2).path = st.path := by
  intro ms
  induction ms with
  | nil => intro alpha st; rfl
  | cons m ms ih =>
    intro alpha st
    simp only [qloop]
    split
    · simp [hf]
    · split
      · simp [hf]
      · rw [ih]
        simp [hf]

theorem quiescenceF_path (env : Env) :
    ∀ (fuel : Nat) (qdepth alpha beta : Int) (st : SearchState),
      ((quiescenceF env fuel qdepth alpha beta st).2).path = st.path := by
  intro fuel
  induction fuel with
  | zero => intro qdepth alpha beta st; rfl
  | succ fuel ih =>
    intro qdepth alpha beta st
    simp only [quiescenceF]
    split
    · rfl
    · split
      · rfl
      · split
        · rfl
        · rw [qloop_path]
          intro a b s
          exact ih (qdepth + 1) a b s

theorem nloop_path (f : Int → Int → SearchState → Int × SearchState)
    (hf : ∀ a b s, ((f a b s).2).path = s.path) (key : Nat) (depth beta : Int) :
    ∀ (ms : List Move) (i : Nat) (alpha best_score : Int) (best_move : Move)
      (flag : TTFlag) (st : SearchState),
      ((nloop f key depth beta ms i alpha best_score best_move flag st).2).path = st.path := by
  intro ms
  induction ms with
  | nil => intro i alpha best_score best_move flag st; rfl
  | cons m ms ih =>
    intro i alpha best_score best_move flag st
    simp only [nloop]
    split
    · split
      · simp [hf]
      · split
        · split <;> simp [hf]
        · rw [ih]
          simp [hf]
    · split
      · split
        · simp [hf]
        · split
          · split <;> simp [hf]
          · rw [ih]
            simp [hf]
      · split
        · simp [hf]
        · split
          · split <;> simp [hf]
          · rw [ih]
            simp [hf]

theorem negamaxRest_path (env : Env)
    (f : Int → Int → Int → Bool → SearchState → Int × SearchState)
    (hf : ∀ d a b na s, ((f d a b na s).2).path = s.path)
    (depth alpha beta : Int) (na : Bool) (tt_move : Move) (key : Nat)
    (st1 : SearchState) :
    ((negamaxRest env f depth alpha beta na tt_move key st1).2).path = st1.path := by
  simp only [negamaxRest]
  split
  · rfl
  · split
    · rfl
    · by_cases hnull : na = true ∧ 3 ≤ depth ∧ (env.viewAt st1.path).inCheck = false ∧
          (env.viewAt st1.path).nonPawnMaterial = true
      · rw [if_pos hnull]
        dsimp only
        split
        · simp [hf]
        · split
          · simp [hf]
          · rw [nloop_path]
            · simp [hf]
            · intro a b s
              exact hf (depth - 1) a b true s
      · rw [if_neg hnull]
        dsimp only
        split
        · rfl
        · rw [nloop_path]
          intro a b s
          exact hf (depth - 1) a b true s

theorem negamaxF_path (env : Env) :
    ∀ (fuel : Nat) (depth alpha beta : Int) (na : Bool) (st : SearchState),
      ((negamaxF env fuel depth alpha beta na st).2).path = st.path := by
  intro fuel
  induction fuel with
  | zero => intro depth alpha beta na st; rfl
  | succ fuel ih =>
    intro depth alpha beta na st
    simp only [negamaxF]
    split
    · rfl
    · split
      · exact quiescenceF_path env 12 0 alpha beta st
      · split
        · rfl
        · split
          · rfl
          · exact negamaxRest_path env _ (fun d a b na2 s => ih d a b na2 s)
              depth alpha beta na _ _ _

theorem searchIter_path (env : Env) :
    ∀ (n : Nat) (d : Int) (best : Move) (st : SearchState),
      ((searchIter env n d best st).2).path = st.path := by
  intro n
  induction n with
  | zero => intro d best st; rfl
  | succ n ih =>
    intro d best st
    simp only [searchIter]
    split
    · rfl
    · rw [ih]
      exact negamaxF_path env _ d (-INF) INF true st

/-! ### The descending sort used by `order_moves` -/

theorem insertDesc_perm (m : Move) :
    ∀ l : List Move, (insertDesc m l).Perm (m :: l) := by
  intro l
  induction l with
  | nil => simp [insertDesc]
  | cons x xs ih =>
    simp only [insertDesc]
    split
    · exact List.Perm.refl _
    · exact ((ih.cons x).trans (List.Perm.swap m x xs))

theorem sortDesc_perm : ∀ l : List Move, (sortDesc l).Perm l := by
  intro l
  induction l with
  | nil => simp [sortDesc]
  | cons m ms ih => exact (insertDesc_perm m (sortDesc ms)).trans (ih.cons m)

theorem insertDesc_sorted (m : Move) :
    ∀ l : List Move, l.Pairwise (fun a b => b.score ≤ a.score) →
      (insertDesc m l).Pairwise (fun a b => b.score ≤ a.score) := by
  intro l
  induction l with
  | nil => intro _; simp [insertDesc]
  | cons x xs ih =>
    intro h
    rw [List.pairwise_cons] at h
    simp only [insertDesc]
    split
    · rename_i hlt
      rw [List.pairwise_cons]
      constructor
      · intro b hb
        rcases List.mem_cons.mp hb with hbx | hbxs
        · subst hbx; omega
        · have := h.1 b hbxs
          omega
      · rw [List.pairwise_cons]
        exact h
    · rename_i hge
      rw [List.pairwise_cons]
      constructor
      · intro b hb
        rcases List.mem_cons.mp ((insertDesc_perm m xs).mem_iff.mp hb) with hbm | hbxs
        · subst hbm; omega
        · exact h.1 b hbxs
      · exact ih h.2

theorem sortDesc_sorted : ∀ l : List Move,
    (sortDesc l).Pairwise (fun a b => b.score ≤ a.score) := by
  intro l
  induction l with
  | nil => simp [sortDesc]
  | cons m ms ih => exact insertDesc_sorted m (sortDesc ms) ih

/-! ### The transposition-table sizing loop -/

theorem growSize_spec :
    ∀ (fuel actual size : Nat), 1 ≤ actual → size ≤ actual + fuel →
      ∃ t, growSize fuel actual size = actual * 2 ^ t ∧ size ≤ actual * 2 ^ t ∧
        (t = 0 ∨ actual * 2 ^ (t - 1) < size) := by
  intro fuel
  induction fuel with
  | zero =>
    intro actual size h1 h2
    refine ⟨0, by simp [growSize], by simpa using h2, Or.inl rfl⟩
  | succ fuel ih =>
    intro actual size h1 h2
    simp only [growSize]
    split
    · rename_i hlt
      obtain ⟨t, hg, hs, hmin⟩ := ih (actual * 2) size (by omega) (by omega)
      refine ⟨t + 1, ?_, ?_, Or.inr ?_⟩
      · rw [hg]; ring
      · calc size ≤ actual * 2 * 2 ^ t := hs
          _ = actual * 2 ^ (t + 1) := by ring
      · rcases hmin with h0 | hlt2
        · subst h0; simpa using hlt
        · cases t with
          | zero => simpa using hlt
          | succ t =>
            have heq2 : actual * 2 ^ (t + 1 + 1 - 1) = actual * 2 * 2 ^ (t + 1 - 1) := by
              simp only [Nat.add_sub_cancel]
              ring
            rw [heq2]
            exact hlt2
    · exact ⟨0, by simp, by omega, Or.inl rfl⟩

/-! ### Window bounds of the returned scores -/

/-- Each `quiescence` frame clamps its result into the caller's window no
matter what the recursive calls return. -/
theorem qloop_bound (f : Int → Int → SearchState → Int × SearchState) (beta : Int) :
    ∀ (ms : List Move) (alpha : Int) (st : SearchState), alpha ≤ beta →
      alpha ≤ (qloop f beta ms alpha st).1 ∧ (qloop f beta ms alpha st).1 ≤ beta := by
  intro ms
  induction ms with
  | nil => intro alpha st h; exact ⟨le_refl _, h⟩
  | cons m ms ih =>
    intro alpha st h
    simp only [qloop]
    split
    · exact ⟨le_refl _, h⟩
    · split
      · exact ⟨h, le_refl _⟩
      · rename_i hsc
        have hA : alpha ≤ (if alpha < -(f (-beta) (-alpha)
              { st with path := some m :: st.path }).1 then
              -(f (-beta) (-alpha) { st with path := some m :: st.path }).1 else alpha) ∧
            (if alpha < -(f (-beta) (-alpha) { st with path := some m :: st.path }).1 then
              -(f (-beta) (-alpha) { st with path := some m :: st.path }).1 else alpha)
              ≤ beta := by
          constructor <;> split <;> omega
        refine ⟨le_trans hA.1 (ih _ _ hA.2).1, (ih _ _ hA.2).2⟩

/-- `quiescence` is fail-hard at every quiescence depth at most 10 (in
particular at its only entry depth 0): the result lies in `[alpha, beta]`. -/
theorem quiescenceF_bound (env : Env) :
    ∀ (fuel : Nat) (qdepth alpha beta : Int) (st : SearchState), alpha ≤ beta → qdepth ≤ 10 →
      alpha ≤ (quiescenceF env fuel qdepth alpha beta st).1 ∧
        (quiescenceF env fuel qdepth alpha beta st).1 ≤ beta := by
  intro fuel qdepth alpha beta st h hq
  cases fuel with
  | zero => exact ⟨le_refl _, h⟩
  | succ fuel =>
    simp only [quiescenceF]
    rw [if_neg (by omega : ¬ 10 < qdepth)]
    split
    · exact ⟨le_refl _, h⟩
    · split
      · exact ⟨h, le_refl _⟩
      · rename_i hsp
        have hA : alpha ≤ (if alpha < evaluate (env.viewAt st.path) then
              evaluate (env.viewAt st.path) else alpha) ∧
            (if alpha < evaluate (env.viewAt st.path) then
              evaluate (env.viewAt st.path) else alpha) ≤ beta := by
          constructor <;> split <;> omega
        refine ⟨le_trans hA.1 (qloop_bound _ beta _ _ _ hA.2).1,
          (qloop_bound _ beta _ _ _ hA.2).2⟩

/-- In the `negamax` move loop, every return path yields a score at most
`beta` (cutoffs return exactly `beta`, the stop path returns the current
alpha, and the fall-through returns the running best score, which stays below
`beta` because any score reaching `beta` causes a cutoff). -/
theorem nloop_le_beta (f : Int → Int → SearchState → Int × SearchState)
    (key : Nat) (depth beta : Int) :
    ∀ (ms : List Move) (i : Nat) (alpha best_score : Int) (best_move : Move)
      (flag : TTFlag) (st : SearchState), alpha ≤ beta → best_score ≤ beta →
      (nloop f key depth beta ms i alpha best_score best_move flag st).1 ≤ beta := by
  intro ms
  induction ms with
  | nil => intro i alpha best_score best_move flag st h1 h2; exact h2
  | cons m ms ih =>
    intro i alpha best_score best_move flag st h1 h2
    simp only [nloop]
    split
    · split
      · exact h1
      · split
        · exact le_refl _
        · rename_i hstop hsc
          exact ih _ _ _ _ _ _ (by split <;> omega) (by split <;> omega)
    · split
      · split
        · exact h1
        · split
          · exact le_refl _
          · rename_i hstop hsc
            exact ih _ _ _ _ _ _ (by split <;> omega) (by split <;> omega)
      · split
        · exact h1
        · split
          · exact le_refl _
          · rename_i hstop hsc
            exact ih _ _ _ _ _ _ (by split <;> omega) (by split <;> omega)

/-- Exhaustive characterization of the scores returned by the part of
`negamax` from the draw shortcut onward. -/
theorem negamaxRest_le_beta_or (env : Env)
    (f : Int → Int → Int → Bool → SearchState → Int × SearchState)
    (depth alpha beta : Int) (na : Bool) (tt_move : Move) (key : Nat)
    (st1 : SearchState) (h1 : alpha ≤ beta) (h2 : -INF ≤ beta) :
    (negamaxRest env f depth alpha beta na tt_move key st1).1 ≤ beta ∨
    (negamaxRest env f depth alpha beta na tt_move key st1).1 = DRAW_VALUE ∨
    (∃ n : Nat, (negamaxRest env f depth alpha beta na tt_move key st1).1
      = -MATE_VALUE + n) := by
  simp only [negamaxRest]
  split
  · exact Or.inr (Or.inl rfl)
  · split
    · split
      · exact Or.inr (Or.inr ⟨_, rfl⟩)
      · exact Or.inr (Or.inl rfl)
    · by_cases hnull : na = true ∧ 3 ≤ depth ∧ (env.viewAt st1.path).inCheck = false ∧
          (env.viewAt st1.path).nonPawnMaterial = true
      · rw [if_pos hnull]
        dsimp only
        split
        · rename_i s heq
          split at heq
          · cases heq
            exact Or.inl (le_refl _)
          · exact Option.noConfusion heq
        · split
          · split
            · exact Or.inr (Or.inr ⟨_, rfl⟩)
            · exact Or.inr (Or.inl rfl)
          · exact Or.inl (nloop_le_beta _ _ _ _ _ _ _ _ _ _ _ h1 h2)
      · rw [if_neg hnull]
        dsimp only
        split
        · split
          · exact Or.inr (Or.inr ⟨_, rfl⟩)
          · exact Or.inr (Or.inl rfl)
        · exact Or.inl (nloop_le_beta _ _ _ _ _ _ _ _ _ _ _ h1 h2)

/-- Exhaustive characterization of the scores returned by `negamax`: the
result is at most `beta` unless it is the stored score of a `TT_EXACT` hit,
`DRAW_VALUE` from the draw shortcut or a stalemate, or a mate score
`-MATE_VALUE + n`. -/
theorem negamaxF_le_beta_or (env : Env) :
    ∀ (fuel : Nat) (depth alpha beta : Int) (na : Bool) (st : SearchState),
      alpha ≤ beta → -INF ≤ beta →
      (negamaxF env fuel depth alpha beta na st).1 ≤ beta ∨
      (negamaxF env fuel depth alpha beta na st).1 = DRAW_VALUE ∨
      (∃ n : Nat, (negamaxF env fuel depth alpha beta na st).1 = -MATE_VALUE + n) ∨
      (∃ e, st.tt.probe ((env.viewAt st.path).hash) = some e ∧
        e.flag = TTFlag.TT_EXACT ∧
        (negamaxF env fuel depth alpha beta na st).1 = e.score) := by
  intro fuel depth alpha beta na st h1 h2
  cases fuel with
  | zero => exact Or.inl h1
  | succ fuel =>
    simp only [negamaxF]
    split
    · exact Or.inl h1
    · split
      · exact Or.inl (quiescenceF_bound env 12 0 alpha beta st h1 (by norm_num)).2
      · split
        · exact Or.inl h1
        · have hrest := fun tm => negamaxRest_le_beta_or env
            (fun d a b na2 s => negamaxF env fuel d a b na2 s) depth alpha beta na tm
            ((env.viewAt st.path).hash)
            { st with nodes_searched := st.nodes_searched + 1 } h1 h2
          cases hp : st.tt.probe ((env.viewAt st.path).hash) with
          | none =>
            rcases hrest NO_MOVE with h | h | ⟨n, h⟩
            · exact Or.inl h
            · exact Or.inr (Or.inl h)
            · exact Or.inr (Or.inr (Or.inl ⟨n, h⟩))
          | some e =>
            split
            · rename_i s heq
              simp only at heq
              split at heq
              · split at heq
                · cases heq
                  exact Or.inr (Or.inr (Or.inr ⟨e, rfl, by assumption, rfl⟩))
                · split at heq
                  · cases heq
                    exact Or.inl h1
                  · split at heq
                    · cases heq
                      exact Or.inl (le_refl _)
                    · exact Option.noConfusion heq
              · exact Option.noConfusion heq
            · rcases hrest e.best_move with h | h | ⟨n, h⟩
              · exact Or.inl h
              · exact Or.inr (Or.inl h)
              · exact Or.inr (Or.inr (Or.inl ⟨n, h⟩))

/-! ### Boundedness of the quiescence recursion -/

theorem qloop_congr (f g : Int → Int → SearchState → Int × SearchState)
    (h : ∀ a b s, f a b s = g a b s) (beta : Int) :
    ∀ (ms : List Move) (alpha : Int) (st : SearchState),
      qloop f beta ms alpha st = qloop g beta ms alpha st := by
  intro ms
  induction ms with
  | nil => intro alpha st; rfl
  | cons m ms ih =>
    intro alpha st
    simp only [qloop, h, ih]

/-- The `quiescence` recursion is insensitive to any fuel of at least
`12 - qdepth` (and at least 1): the nesting of recursive calls beyond a frame
at quiescence depth `qdepth` never exceeds `11 - qdepth`, so the recursion
depth from the engine's only entry (`qdepth = 0`) never exceeds 11. -/
theorem quiescenceF_stable (env : Env) :
    ∀ (f1 f2 : Nat) (qdepth alpha beta : Int) (st : SearchState),
      1 ≤ f1 → 1 ≤ f2 → 12 - qdepth ≤ (f1 : Int) → 12 - qdepth ≤ (f2 : Int) →
      quiescenceF env f1 qdepth alpha beta st = quiescenceF env f2 qdepth alpha beta st := by
  intro f1
  induction f1 with
  | zero => intro f2 qdepth alpha beta st hf1 _ _ _; omega
  | succ g1 ih =>
    intro f2 qdepth alpha beta st hf1 hf2 hb1 hb2
    cases f2 with
    | zero => omega
    | succ g2 =>
      simp only [quiescenceF]
      by_cases hq : 10 < qdepth
      · rw [if_pos hq, if_pos hq]
      · rw [if_neg hq, if_neg hq]
        split
        · rfl
        · split
          · rfl
          · exact qloop_congr _ _
              (fun a b s => ih g2 (qdepth + 1) a b s
                (by omega) (by omega) (by omega) (by omega)) _ _ _ _

/-! ### Stop paths store nothing and return alpha -/

/-- If `stop_search` is already set on entry, `negamax` returns the alpha
argument with the whole state (table included) untouched. -/
theorem negamaxF_stop_entry (env : Env) (fuel : Nat) (depth alpha beta : Int)
    (na : Bool) (st : SearchState) (h : st.stop_search = true) :
    negamaxF env fuel depth alpha beta na st = (alpha, st) := by
  cases fuel with
  | zero => rfl
  | succ fuel => simp only [negamaxF, h]; rfl

/-- If the time poll at a `negamax` node fires, the call returns the alpha
argument; the only state change is the node-count increment and the stop flag
(no `tt.store` happens). -/
theorem negamaxF_stop_poll (env : Env) (fuel : Nat) (depth alpha beta : Int)
    (na : Bool) (st : SearchState) (h : st.stop_search = false) (hd : 0 < depth)
    (hmod : (st.nodes_searched + 1) % 1024 = 0)
    (ht : env.timeExpired (st.nodes_searched + 1) = true) :
    negamaxF env (fuel + 1) depth alpha beta na st =
      (alpha, { st with nodes_searched := st.nodes_searched + 1, stop_search := true }) := by
  simp only [negamaxF]
  rw [if_neg (by simp [h]), if_neg (by omega : ¬ depth ≤ 0),
    if_pos (by simp [hmod, ht])]

/-- If the `negamax` move loop exits because a child call set `stop_search`,
the returned state is exactly that child's output state with the made move
popped (in particular the loop's frame performs no `tt.store` after the
abort), and the returned score is the loop's current alpha, which is at least
the alpha the loop started with. -/
theorem nloop_stop (f : Int → Int → SearchState → Int × SearchState)
    (key : Nat) (depth beta : Int) :
    ∀ (ms : List Move) (i : Nat) (alpha best_score : Int) (best_move : Move)
      (flag : TTFlag) (st : SearchState),
      st.stop_search = false →
      ((nloop f key depth beta ms i alpha best_score best_move flag st).2).stop_search = true →
      ∃ a b stIn r stOut, f a b stIn = (r, stOut) ∧ stOut.stop_search = true ∧
        (nloop f key depth beta ms i alpha best_score best_move flag st).2 =
          { stOut with path := stOut.path.tail } ∧
        alpha ≤ (nloop f key depth beta ms i alpha best_score best_move flag st).1 := by
  intro ms
  induction ms with
  | nil =>
    intro i alpha best_score best_move flag st h0 hstop
    exact absurd hstop (by simp [nloop, h0])
  | cons m ms ih =>
    intro i alpha best_score best_move flag st h0 hstop
    simp only [nloop] at hstop ⊢
    split
    · rename_i hi
      split
      · rename_i hs
        exact ⟨-beta, -alpha, { st with path := some m :: st.path },
          (f (-beta) (-alpha) { st with path := some m :: st.path }).1,
          (f (-beta) (-alpha) { st with path := some m :: st.path }).2,
          rfl, hs, rfl, le_refl _⟩
      · rename_i hs
        split
        · rename_i hcut
          simp [hi, hs, hcut] at hstop
        · rename_i hcut
          rw [if_pos hi, if_neg hs, if_neg hcut] at hstop
          obtain ⟨a, b, stIn, r, stOut, hfa, hso, heq, hle⟩ :=
            ih _ _ _ _ _ _ (by simp_all) hstop
          exact ⟨a, b, stIn, r, stOut, hfa, hso, heq,
            le_trans (by split <;> omega) hle⟩
    · rename_i hi
      split
      · rename_i hp
        split
        · rename_i hs
          exact ⟨-beta, -alpha,
            (f (-alpha - 1) (-alpha) { st with path := some m :: st.path }).2,
            (f (-beta) (-alpha)
              (f (-alpha - 1) (-alpha) { st with path := some m :: st.path }).2).1,
            (f (-beta) (-alpha)
              (f (-alpha - 1) (-alpha) { st with path := some m :: st.path }).2).2,
            rfl, hs, rfl, le_refl _⟩
        · rename_i hs
          split
          · rename_i hcut
            simp [hi, hp, hs, hcut] at hstop
          · rename_i hcut
            rw [if_neg hi, if_pos hp, if_neg hs, if_neg hcut] at hstop
            obtain ⟨a, b, stIn, r, stOut, hfa, hso, heq, hle⟩ :=
              ih _ _ _ _ _ _ (by simp_all) hstop
            exact ⟨a, b, stIn, r, stOut, hfa, hso, heq,
              le_trans (by split <;> omega) hle⟩
      · rename_i hp
        split
        · rename_i hs
          exact ⟨-alpha - 1, -alpha, { st with path := some m :: st.path },
            (f (-alpha - 1) (-alpha) { st with path := some m :: st.path }).1,
            (f (-alpha - 1) (-alpha) { st with path := some m :: st.path }).2,
            rfl, hs, rfl, le_refl _⟩
        · rename_i hs
          split
          · rename_i hcut
            simp [hi, hp, hs, hcut] at hstop
          · rename_i hcut
            rw [if_neg hi, if_neg hp, if_neg hs, if_neg hcut] at hstop
            obtain ⟨a, b, stIn, r, stOut, hfa, hso, heq, hle⟩ :=
              ih _ _ _ _ _ _ (by simp_all) hstop
            exact ⟨a, b, stIn, r, stOut, hfa, hso, heq,
              le_trans (by split <;> omega) hle⟩

/-! ### The in-check evaluation adjustment -/

/-- The white-perspective running score differs from the same position with
the check flag cleared by exactly the term `sideToMove == WHITE ? -20 : 20`. -/
theorem evalWhiteScore_inCheck (b : BoardView) (h : b.inCheck = true) :
    evalWhiteScore b = evalWhiteScore { b with inCheck := false } +
      (if b.sideToMove = Color.WHITE then -20 else 20) := by
  cases b with
  | mk stm go hmd rep ic npm hsh sqs lm kw kb =>
    cases h
    simp only [evalWhiteScore, count_pieces, squareTerm, calculate_mobility]
    split_ifs <;> first | contradiction | ring

/-- For every position that is not game over and has the side to move in
check, the side-to-move-perspective evaluation is 20 lower than for the same
position with the check flag cleared (for White the white-perspective score
is 20 lower, for Black it is 20 higher and the final negation flips it). -/
theorem evaluate_inCheck (b : BoardView) (hgo : b.gameOverReason = GameResultReason.NONE)
    (h : b.inCheck = true) :
    evaluate b = evaluate { b with inCheck := false } - 20 := by
  have hw := evalWhiteScore_inCheck b h
  cases b with
  | mk stm go hmd rep ic npm hsh sqs lm kw kb =>
    cases hgo
    cases h
    simp only [evaluate, ne_eq, not_true_eq_false, if_false, reduceCtorEq,
      not_false_eq_true, if_true] at *
    by_cases hstm : stm = Color.WHITE
    · rw [if_pos hstm] at hw ⊢
      rw [if_pos hstm, hw]
      ring
    · rw [if_neg hstm] at hw ⊢
      rw [if_neg hstm, hw]
      ring

/-! ### The transposition-table replacement policy and sizing -/

/-- `TranspositionTable::store` writes the indexed slot iff it is empty, or
stores a depth at most the new depth, or already holds the same key; all
other slots are always unchanged, and a refused store changes nothing. -/
theorem tt_store_policy (t : TT) (key : Nat) (move : Move) (depth score : Int)
    (flag : TTFlag) :
    (((t.table (t.index key)).key = 0 ∨ (t.table (t.index key)).depth ≤ depth ∨
        (t.table (t.index key)).key = key) →
      ((t.store key move depth score flag).table (t.index key) =
          ⟨key, move, depth, score, flag⟩ ∧
        (∀ j, j ≠ t.index key →
          (t.store key move depth score flag).table j = t.table j) ∧
        (t.store key move depth score flag).size = t.size ∧
        (t.store key move depth score flag).size_mask = t.size_mask)) ∧
    (¬ ((t.table (t.index key)).key = 0 ∨ (t.table (t.index key)).depth ≤ depth ∨
        (t.table (t.index key)).key = key) →
      t.store key move depth score flag = t) := by
  constructor
  · intro hc
    simp only [TT.store]
    rw [if_pos hc]
    refine ⟨by simp, fun j hj => by simp [hj], rfl, rfl⟩
  · intro hc
    simp only [TT.store]
    rw [if_neg hc]

/-- The table length chosen by the constructor is the least power of two at
least `(size_mb * 1024 * 1024) / sizeof(TTEntry)`, the stored mask is
`length - 1`, and the slot index used by both `probe` and `store` is
`key & (length - 1)`. -/
theorem tt_new_size (size_mb : Nat) (h : 1 ≤ size_mb) :
    (∃ k, (TT.new size_mb).size = 2 ^ k) ∧
    (size_mb * 1024 * 1024) / ttEntryBytes ≤ (TT.new size_mb).size ∧
    (∀ j, (size_mb * 1024 * 1024) / ttEntryBytes ≤ 2 ^ j → (TT.new size_mb).size ≤ 2 ^ j) ∧
    (TT.new size_mb).size_mask = (TT.new size_mb).size - 1 ∧
    (∀ key, (TT.new size_mb).index key = key &&& ((TT.new size_mb).size - 1)) := by
  have htarget : 1 ≤ (size_mb * 1024 * 1024) / ttEntryBytes := by
    have : 1024 * 1024 / 24 ≤ (size_mb * 1024 * 1024) / 24 :=
      Nat.div_le_div_right (by nlinarith)
    simp only [ttEntryBytes]
    omega
  obtain ⟨t, hg, hs, hmin⟩ := growSize_spec ((size_mb * 1024 * 1024) / ttEntryBytes) 1
    ((size_mb * 1024 * 1024) / ttEntryBytes) (le_refl 1) (by omega)
  have hsize : (TT.new size_mb).size = 2 ^ t := by
    simp only [TT.new, hg]
    ring
  refine ⟨⟨t, hsize⟩, ?_, ?_, rfl, fun key => rfl⟩
  · rw [hsize]
    simpa using hs
  · intro j hj
    rw [hsize]
    rcases hmin with h0 | hlt
    · subst h0
      exact Nat.one_le_two_pow
    · have h2 : 2 ^ (t - 1) < 2 ^ j := by
        calc 2 ^ (t - 1) < (size_mb * 1024 * 1024) / ttEntryBytes := by simpa using hlt
          _ ≤ 2 ^ j := hj
      have : t - 1 < j := (Nat.pow_lt_pow_iff_right (by omega)).mp h2
      exact Nat.pow_le_pow_right (by omega) (by omega)

/-! ### Move-ordering characterization -/

/-- The ordering key as the code computes it, stated as in the amended
specification: 10000 for the table move; for captures, the material value of
the piece standing on the destination square (zero for en passant, whose
captured pawn is not on the destination square) minus the mover's value plus
1000; promotion value plus 500 for promotions; 0 otherwise; plus 100 if the
move gives check. -/
def specMoveKey (t : GTree) (tt_move : Move) (m : Move) : Int :=
  (if m == tt_move then 10000
   else if t.view.isCapture m then
     piece_values (t.view.squares m.toSq).type - piece_values (t.view.squares m.fromSq).type
       + 1000
   else if m.typeOf == MoveType.PROMOTION then piece_values m.promotionType + 500
   else 0) +
  (if givesCheck t m then 100 else 0)

/-- `order_moves` sets every move's score to its ordering key and returns a
score-descending permutation of the scored input list. -/
theorem order_moves_spec (t : GTree) (ms : List Move) (tt_move : Move) :
    (order_moves t ms tt_move).Pairwise (fun a b => b.score ≤ a.score) ∧
    (order_moves t ms tt_move).Perm
      (ms.map (fun m => { m with score := specMoveKey t tt_move m })) := by
  constructor
  · exact sortDesc_sorted _
  · exact sortDesc_perm _

/-! ### The search driver never loses a legal move -/

theorem move_beq_self (m : Move) : (m == m) = true := by
  simp [BEq.beq, Move.meq]

theorem contains_headD {l : List Move} (h : l ≠ []) :
    l.contains (l.headD NO_MOVE) = true := by
  cases l with
  | nil => exact absurd rfl h
  | cons a l => simp [List.contains_cons, move_beq_self]

/-- `search` returns a legal root move whenever one exists, and the `NO_MOVE`
sentinel exactly when the root has no legal moves, in which case the `go`
handler prints `bestmove 0000` (modelled as `none`). -/
theorem search_result (env : Env) (st : SearchState) (max_depth : Nat) :
    ((env.viewAt st.path).legalMoves ≠ [] →
      (env.viewAt st.path).legalMoves.contains (search env st max_depth).1 = true) ∧
    ((env.viewAt st.path).legalMoves = [] →
      (search env st max_depth).1 = NO_MOVE ∧ goHandlerMove env st max_depth = none) := by
  have hpath : (searchIter env max_depth 1 NO_MOVE
      { st with stop_search := false, nodes_searched := 0 }).2.path = st.path :=
    searchIter_path env max_depth 1 NO_MOVE _
  constructor
  · intro hne
    simp only [search, hpath]
    split
    · exact contains_headD hne
    · rename_i hcond
      simp only [Bool.or_eq_true, Bool.not_eq_true'] at hcond
      push_neg at hcond
      simpa using hcond.2
  · intro hempty
    have h1 : (search env st max_depth).1 = NO_MOVE := by
      simp only [search, hpath]
      split
      · simp [hempty]
      · rename_i hcond
        exfalso
        apply hcond
        simp [hempty]
    refine ⟨h1, ?_⟩
    simp only [goHandlerMove, h1]
    have hpath2 : (search env st max_depth).2.path = st.path := by
      simp only [search]
      exact hpath
    simp [bne, move_beq_self, hpath2, hempty]

/-! ### Concrete positions used by the claim instances -/

/-- A small table of empty entries (mask 3). -/
def ttTest : TT := ⟨fun _ => TTEntry.empty, 4, 3⟩

/-- A position the library reports as a 50-move-rule draw. -/
def drawView : BoardView := { defaultView with halfMoveDraw := true, hash := 5 }

/-- An environment whose root is the draw position and whose clock never
expires. -/
def drawEnv : Env := ⟨GTree.node drawView [] none, fun _ => false⟩

/-- A fresh search state at the root. -/
def st0 : SearchState := ⟨[], ttTest, false, 0⟩

/-- A search state with the stop flag already set. -/
def stStop : SearchState := ⟨[], ttTest, true, 0⟩

/-- A checkmated position with Black to move (for example after scholar's
mate, FEN r1bqkb1r/pppp1Qpp/2n2n2/4p3/2B1P3/8/PPPP1PPP/RNB1K1NR b KQkq - 0 4). -/
def mateBView : BoardView :=
  { defaultView with
    sideToMove := Color.BLACK
    gameOverReason := GameResultReason.CHECKMATE }

/-- A bare-kings position with Black to move and in check. -/
def checkBView : BoardView :=
  { defaultView with
    sideToMove := Color.BLACK
    inCheck := true
    squares := fun sq =>
      if sq = 4 then Piece.mk Color.WHITE PieceType.KING
      else if sq = 60 then Piece.mk Color.BLACK PieceType.KING
      else Piece.NONE
    kingSqW := 4
    kingSqB := 60 }

/-- An en passant capture: the white pawn on e5 (square 36) takes the black
pawn on d5 (square 35) en passant, landing on the empty square d6 (43). -/
def epMove : Move := ⟨36, 43, MoveType.ENPASSANT, PieceType.KNIGHT, 0⟩

/-- The board of the en passant position. -/
def epView : BoardView :=
  { defaultView with
    squares := fun sq =>
      if sq = 36 then Piece.mk Color.WHITE PieceType.PAWN
      else if sq = 35 then Piece.mk Color.BLACK PieceType.PAWN
      else if sq = 4 then Piece.mk Color.WHITE PieceType.KING
      else if sq = 60 then Piece.mk Color.BLACK PieceType.KING
      else Piece.NONE
    legalMoves := [epMove]
    kingSqW := 4
    kingSqB := 60 }

/-- The en passant position as a game tree. -/
def epTree : GTree := GTree.node epView [] none

/-- An environment rooted at the en passant position. -/
def epEnv : Env := ⟨epTree, fun _ => false⟩

/-! ### Claim theorems -/

/-- Claim C1, as stated, is false: with the window `100 < 200`, `negamax` at
depth 1 on a position the library reports as a 50-move draw returns
`DRAW_VALUE = 0`, which is below `alpha = 100`. -/
theorem claim1_fail_hard_counterexample :
    (100 : Int) < 200 ∧ (negamaxF drawEnv 1 1 100 200 true st0).1 = 0 ∧
      ¬ ((100 : Int) ≤ (negamaxF drawEnv 1 1 100 200 true st0).1) := by
  refine ⟨by norm_num, ?_, ?_⟩ <;> decide

/-- Claim C1 (amended): the fail-hard bound holds in the weakened form that a
`negamax` score never exceeds `beta` unless it is a `TT_EXACT` stored score,
the draw value, or a mate value `-MATE_VALUE + n`; the lower bound `alpha`
can additionally fail on the final best-score return.  The quiescence value
used at `depth <= 0` does lie in `[alpha, beta]`. -/
theorem claim1_fail_hard_amended :
    (∀ (env : Env) (fuel : Nat) (depth alpha beta : Int) (na : Bool) (st : SearchState),
      alpha ≤ beta → -INF ≤ beta →
      (negamaxF env fuel depth alpha beta na st).1 ≤ beta ∨
      (negamaxF env fuel depth alpha beta na st).1 = DRAW_VALUE ∨
      (∃ n : Nat, (negamaxF env fuel depth alpha beta na st).1 = -MATE_VALUE + n) ∨
      (∃ e, st.tt.probe ((env.viewAt st.path).hash) = some e ∧
        e.flag = TTFlag.TT_EXACT ∧
        (negamaxF env fuel depth alpha beta na st).1 = e.score)) ∧
    (∀ (env : Env) (alpha beta : Int) (st : SearchState), alpha ≤ beta →
      alpha ≤ (quiescenceF env 12 0 alpha beta st).1 ∧
        (quiescenceF env 12 0 alpha beta st).1 ≤ beta) :=
  ⟨fun env fuel depth alpha beta na st h1 h2 =>
    negamaxF_le_beta_or env fuel depth alpha beta na st h1 h2,
   fun env alpha beta st h =>
    quiescenceF_bound env 12 0 alpha beta st h (by norm_num)⟩

/-- Concrete instance of the amended claim C1 at a satisfiable input. -/
theorem claim1_fail_hard_witness :
    ((negamaxF drawEnv 1 1 100 200 true st0).1 ≤ 200 ∨
      (negamaxF drawEnv 1 1 100 200 true st0).1 = DRAW_VALUE ∨
      (∃ n : Nat, (negamaxF drawEnv 1 1 100 200 true st0).1 = -MATE_VALUE + n) ∨
      (∃ e, st0.tt.probe ((drawEnv.viewAt st0.path).hash) = some e ∧
        e.flag = TTFlag.TT_EXACT ∧
        (negamaxF drawEnv 1 1 100 200 true st0).1 = e.score)) ∧
    (0 ≤ (quiescenceF drawEnv 12 0 0 10 st0).1 ∧
      (quiescenceF drawEnv 12 0 0 10 st0).1 ≤ 10) :=
  ⟨claim1_fail_hard_amended.1 drawEnv 1 1 100 200 true st0 (by norm_num) (by norm_num [INF]),
   claim1_fail_hard_amended.2 drawEnv 0 10 st0 (by norm_num)⟩

/-- Claim C2: the claim is right and the code is wrong.  On a checkmated
position with Black to move, `evaluate` returns `+MATE_VALUE = 30000` from
the side-to-move's perspective (the early game-over return computes the
white-perspective sign and skips the final side-to-move negation), whereas
the specified value is `-MATE_VALUE`. -/
theorem claim2_checkmate_eval_bug :
    mateBView.sideToMove = Color.BLACK ∧
    mateBView.gameOverReason = GameResultReason.CHECKMATE ∧
    evaluate mateBView = 30000 ∧ (30000 : Int) ≠ -MATE_VALUE := by
  refine ⟨rfl, rfl, by decide, by decide⟩

/-- Claim C3, as stated, is false: for Black to move in check the
white-perspective running score is 20 higher, not 20 lower, than for the same
position with the check flag cleared. -/
theorem claim3_check_malus_counterexample :
    checkBView.sideToMove = Color.BLACK ∧ checkBView.inCheck = true ∧
    checkBView.gameOverReason = GameResultReason.NONE ∧
    evalWhiteScore checkBView = evalWhiteScore { checkBView with inCheck := false } + 20 ∧
    evalWhiteScore checkBView ≠ evalWhiteScore { checkBView with inCheck := false } - 20 := by
  refine ⟨rfl, rfl, rfl, by decide, by decide⟩

/-- Claim C3 (amended): the in-check term adds `sideToMove == WHITE ? -20 :
+20` to the white-perspective running score, which subtracts 20 from the
side-to-move-perspective evaluation for either color. -/
theorem claim3_check_malus_amended :
    ∀ b : BoardView, b.inCheck = true →
      (evalWhiteScore b = evalWhiteScore { b with inCheck := false } +
        (if b.sideToMove = Color.WHITE then -20 else 20)) ∧
      (b.gameOverReason = GameResultReason.NONE →
        evaluate b = evaluate { b with inCheck := false } - 20) :=
  fun b h => ⟨evalWhiteScore_inCheck b h, fun hgo => evaluate_inCheck b hgo h⟩

/-- Concrete instance of the amended claim C3 at a satisfiable input. -/
theorem claim3_check_malus_witness :
    (evalWhiteScore checkBView = evalWhiteScore { checkBView with inCheck := false } +
      (if checkBView.sideToMove = Color.WHITE then -20 else 20)) ∧
    evaluate checkBView = evaluate { checkBView with inCheck := false } - 20 :=
  ⟨(claim3_check_malus_amended checkBView rfl).1,
   (claim3_check_malus_amended checkBView rfl).2 rfl⟩

/-- Claim C4: `store` overwrites the indexed slot exactly under the stated
replacement condition and never touches any other slot. -/
theorem claim4_tt_store_policy :
    ∀ (t : TT) (key : Nat) (move : Move) (depth score : Int) (flag : TTFlag),
      (((t.table (t.index key)).key = 0 ∨ (t.table (t.index key)).depth ≤ depth ∨
          (t.table (t.index key)).key = key) →
        ((t.store key move depth score flag).table (t.index key) =
            ⟨key, move, depth, score, flag⟩ ∧
          (∀ j, j ≠ t.index key →
            (t.store key move depth score flag).table j = t.table j) ∧
          (t.store key move depth score flag).size = t.size ∧
          (t.store key move depth score flag).size_mask = t.size_mask)) ∧
      (¬ ((t.table (t.index key)).key = 0 ∨ (t.table (t.index key)).depth ≤ depth ∨
          (t.table (t.index key)).key = key) →
        t.store key move depth score flag = t) :=
  fun t key move depth score flag => tt_store_policy t key move depth score flag

/-- Concrete instance of claim C4: storing into an empty slot writes it, and
a shallower store into an occupied slot with a different key is refused. -/
theorem claim4_tt_store_witness :
    ((ttTest.store 9 epMove 3 7 TTFlag.TT_BETA).table (ttTest.index 9) =
      ⟨9, epMove, 3, 7, TTFlag.TT_BETA⟩) ∧
    ((ttTest.store 9 epMove 3 7 TTFlag.TT_BETA).store 13 NO_MOVE 2 0 TTFlag.TT_EXACT =
      ttTest.store 9 epMove 3 7 TTFlag.TT_BETA) :=
  ⟨((claim4_tt_store_policy ttTest 9 epMove 3 7 TTFlag.TT_BETA).1 (by decide)).1,
   (claim4_tt_store_policy (ttTest.store 9 epMove 3 7 TTFlag.TT_BETA)
      13 NO_MOVE 2 0 TTFlag.TT_EXACT).2 (by decide)⟩

/-- Claim C5: every completed `negamax` call restores the made-move stack,
hence the post-call position hash equals the pre-call hash. -/
theorem claim5_make_unmake_balance :
    ∀ (env : Env) (fuel : Nat) (depth alpha beta : Int) (na : Bool) (st : SearchState),
      ((negamaxF env fuel depth alpha beta na st).2).path = st.path ∧
      (env.viewAt ((negamaxF env fuel depth alpha beta na st).2).path).hash =
        (env.viewAt st.path).hash := by
  intro env fuel depth alpha beta na st
  have h := negamaxF_path env fuel depth alpha beta na st
  exact ⟨h, by rw [h]⟩

/-- Claim C6: with at least one legal root move, `search` returns a legal
root move and never the `NO_MOVE` sentinel; with none, it returns `NO_MOVE`
and the protocol's `go` handler prints `bestmove 0000` (modelled as `none`). -/
theorem claim6_search_returns_legal :
    ∀ (env : Env) (st : SearchState) (max_depth : Nat), 1 ≤ max_depth →
      ((env.viewAt st.path).legalMoves ≠ [] →
        (env.viewAt st.path).legalMoves.contains NO_MOVE = false →
        (env.viewAt st.path).legalMoves.contains (search env st max_depth).1 = true ∧
          (search env st max_depth).1 ≠ NO_MOVE) ∧
      ((env.viewAt st.path).legalMoves = [] →
        (search env st max_depth).1 = NO_MOVE ∧ goHandlerMove env st max_depth = none) := by
  intro env st max_depth hmd
  constructor
  · intro hne hwf
    have h := (search_result env st max_depth).1 hne
    refine ⟨h, ?_⟩
    intro hEq
    rw [hEq, hwf] at h
    cases h
  · exact (search_result env st max_depth).2

/-- Concrete instance of claim C6 at satisfiable inputs: a position with one
legal move, and a position with none. -/
theorem claim6_search_witness :
    ((epEnv.viewAt st0.path).legalMoves.contains (search epEnv st0 1).1 = true ∧
      (search epEnv st0 1).1 ≠ NO_MOVE) ∧
    ((search drawEnv st0 1).1 = NO_MOVE ∧ goHandlerMove drawEnv st0 1 = none) :=
  ⟨(claim6_search_returns_legal epEnv st0 1 (by norm_num)).1 (by decide) (by decide),
   (claim6_search_returns_legal drawEnv st0 1 (by norm_num)).2 rfl⟩

/-- Claim C7, as stated, is false for en passant: the code reads the captured
piece from the (empty) destination square, so the en passant key is
`0 - piece_value[PAWN] + 1000 = 900` rather than
`piece_value[captured pawn] - piece_value[PAWN] + 1000 = 1000`. -/
theorem claim7_ep_counterexample :
    epView.isCapture epMove = true ∧ epMove.typeOf = MoveType.ENPASSANT ∧
    epView.squares epMove.toSq = Piece.NONE ∧
    (order_moves epTree [epMove] NO_MOVE).map Move.score = [900] ∧
    (piece_values PieceType.PAWN - piece_values PieceType.PAWN + 1000 : Int) = 1000 ∧
    ((900 : Int) ≠ 1000) := by
  refine ⟨rfl, rfl, rfl, by decide, by decide, by decide⟩

/-- Claim C7 (amended): `order_moves` assigns each move the key 10000 for the
table move; else, for captures, the value of the piece on the destination
square (zero for en passant) minus the mover's value plus 1000; else the
promotion value plus 500 for promotions; else 0; plus 100 if the move gives
check; and returns the scored moves sorted by key in descending order. -/
theorem claim7_order_moves_amended :
    ∀ (t : GTree) (ms : List Move) (tt_move : Move),
      (order_moves t ms tt_move).Pairwise (fun a b => b.score ≤ a.score) ∧
      (order_moves t ms tt_move).Perm
        (ms.map (fun m => { m with score := specMoveKey t tt_move m })) :=
  fun t ms tt_move => order_moves_spec t ms tt_move

/-- Claim C8: `quiescence` is total; a call with `qdepth > 10` returns the
static evaluation immediately with the state unchanged, and the recursion is
insensitive to any fuel of at least `12 - qdepth`, so the recursion depth
from the engine's entry at `qdepth = 0` never exceeds 11. -/
theorem claim8_quiescence_bounded :
    (∀ (env : Env) (fuel : Nat) (qdepth alpha beta : Int) (st : SearchState),
      10 < qdepth →
      quiescenceF env (fuel + 1) qdepth alpha beta st = (evaluate (env.viewAt st.path), st)) ∧
    (∀ (env : Env) (f1 f2 : Nat) (qdepth alpha beta : Int) (st : SearchState),
      1 ≤ f1 → 1 ≤ f2 → 12 - qdepth ≤ (f1 : Int) → 12 - qdepth ≤ (f2 : Int) →
      quiescenceF env f1 qdepth alpha beta st = quiescenceF env f2 qdepth alpha beta st) := by
  constructor
  · intro env fuel qdepth alpha beta st h
    simp only [quiescenceF]
    rw [if_pos h]
  · exact quiescenceF_stable

/-- Concrete instance of claim C8 at satisfiable inputs. -/
theorem claim8_quiescence_witness :
    quiescenceF drawEnv 1 11 3 5 st0 = (evaluate (drawEnv.viewAt st0.path), st0) ∧
    quiescenceF drawEnv 12 0 3 5 st0 = quiescenceF drawEnv 13 0 3 5 st0 :=
  ⟨claim8_quiescence_bounded.1 drawEnv 0 11 3 5 st0 (by norm_num),
   claim8_quiescence_bounded.2 drawEnv 12 13 0 3 5 st0 (by norm_num) (by norm_num)
     (by norm_num) (by norm_num)⟩

/-- Claim C9: the table length is the least power of two at least
`(mb * 1024 * 1024) / sizeof(TTEntry)` and the slot index used by `probe`
and `store` is `hash & (length - 1)`. -/
theorem claim9_tt_sizing :
    ∀ size_mb : Nat, 1 ≤ size_mb →
      (∃ k, (TT.new size_mb).size = 2 ^ k) ∧
      (size_mb * 1024 * 1024) / ttEntryBytes ≤ (TT.new size_mb).size ∧
      (∀ j, (size_mb * 1024 * 1024) / ttEntryBytes ≤ 2 ^ j →
        (TT.new size_mb).size ≤ 2 ^ j) ∧
      (TT.new size_mb).size_mask = (TT.new size_mb).size - 1 ∧
      (∀ key, (TT.new size_mb).index key = key &&& ((TT.new size_mb).size - 1)) :=
  fun size_mb h => tt_new_size size_mb h

/-- Concrete instance of claim C9 at `size_mb = 1`: the target is
`1048576 / 24 = 43690` and the chosen length (65536) is a power of two at
least the target with mask `length - 1`. -/
theorem claim9_tt_sizing_witness :
    (TT.new 1).size = 65536 ∧
    (1 * 1024 * 1024) / ttEntryBytes ≤ (TT.new 1).size ∧
    (TT.new 1).size_mask = (TT.new 1).size - 1 ∧
    (TT.new 1).index 70000 = 70000 &&& ((TT.new 1).size - 1) :=
  ⟨by decide, (claim9_tt_sizing 1 (by norm_num)).2.1,
   (claim9_tt_sizing 1 (by norm_num)).2.2.2.1,
   (claim9_tt_sizing 1 (by norm_num)).2.2.2.2 70000⟩

/-- Claim C10: the stop paths of `negamax` return alpha and never store.  If
the stop flag is set on entry the call returns `(alpha, st)` unchanged; if
the time poll fires, the call returns alpha having only incremented the node
counter and set the stop flag; and if the move loop sees the stop flag after
a child call, it returns its current alpha (at least the entry alpha) with
the state exactly the aborting child's output state, move popped — so the
frame performs no `tt.store` on any stop path. -/
theorem claim10_stop_paths :
    (∀ (env : Env) (fuel : Nat) (depth alpha beta : Int) (na : Bool) (st : SearchState),
      st.stop_search = true → negamaxF env fuel depth alpha beta na st = (alpha, st)) ∧
    (∀ (env : Env) (fuel : Nat) (depth alpha beta : Int) (na : Bool) (st : SearchState),
      st.stop_search = false → 0 < depth → (st.nodes_searched + 1) % 1024 = 0 →
      env.timeExpired (st.nodes_searched + 1) = true →
      negamaxF env (fuel + 1) depth alpha beta na st =
        (alpha, { st with nodes_searched := st.nodes_searched + 1, stop_search := true })) ∧
    (∀ (f : Int → Int → SearchState → Int × SearchState) (key : Nat) (depth beta : Int)
      (ms : List Move) (i : Nat) (alpha best_score : Int) (best_move : Move)
      (flag : TTFlag) (st : SearchState),
      st.stop_search = false →
      ((nloop f key depth beta ms i alpha best_score best_move flag st).2).stop_search = true →
      ∃ a b stIn r stOut, f a b stIn = (r, stOut) ∧ stOut.stop_search = true ∧
        (nloop f key depth beta ms i alpha best_score best_move flag st).2 =
          { stOut with path := stOut.path.tail } ∧
        alpha ≤ (nloop f key depth beta ms i alpha best_score best_move flag st).1) :=
  ⟨fun env fuel depth alpha beta na st h =>
    negamaxF_stop_entry env fuel depth alpha beta na st h,
   fun env fuel depth alpha beta na st h hd hmod ht =>
    negamaxF_stop_poll env fuel depth alpha beta na st h hd hmod ht,
   fun f key depth beta ms i alpha best_score best_move flag st h0 hstop =>
    nloop_stop f key depth beta ms i alpha best_score best_move flag st h0 hstop⟩

/-- Concrete instance of claim C10: with the stop flag set, `negamax` returns
the alpha argument and the untouched state. -/
theorem claim10_stop_paths_witness :
    negamaxF drawEnv 3 2 1 5 true stStop = (1, stStop) :=
  claim10_stop_paths.1 drawEnv 3 2 1 5 true stStop rfl

end Engine
